import Mathlib

/-!
Verification of the cluster key manager (kmgr) against its specification.

The development shallowly embeds the two source files
`src/backend/crypto/kmgr.c` and `src/common/kmgr_utils.c`:

* the on-disk key store: directory enumeration (`kmgr_get_cryptokeys`,
  filename filter and `strtoul` parse, short-read handling);
* rotation crash recovery (`recoverIncompleteRotation`);
* startup verification (`InitializeKmgr`, `kmgr_verify_passphrase`);
* the passphrase command builder (`kmgr_run_cluster_passphrase_command`,
  embedded as `buildCmd`), including its exact `StrNCpy` behaviour;
* the stubbed accessor `KmgrGetKey`.

AEAD wrap/unwrap and passphrase key derivation are external primitives
(OpenSSL-backed, outside the two files); theorems quantify over them and
state the authenticated-encryption facts they rely on as hypotheses.
-/

/-- Number of managed internal keys.  Modelled from the spec:
`KMGR_MAX_INTERNAL_KEYS` is defined in a header that is not part of the
two source files; the spec fixes the population at one key (the SQL DEK). -/
def KMGR_MAX_INTERNAL_KEYS : Nat := 1

/-- On-disk size of a wrapped `CryptoKey` record.  Modelled from the spec:
`sizeof(CryptoKey)` comes from a header outside the source files; the spec
only requires a fixed size of at most 512 bytes (single-sector atomicity).
The exact value never matters below, only equality with it. -/
def sizeofCryptoKey : Nat := 512

/-- Zeroed `CryptoKey` record, as produced by `palloc0`. -/
def zeroKey : List Nat := []

deriving instance DecidableEq for Except

/-- Errors of the key manager, following the code's `elog`/`ereport` sites. -/
inductive KmgrErr where
  /-- Primary key directory cannot be opened because it does not exist. -/
  | missingKeystore
  /-- elog "invalid cryptographic key identifier". -/
  | invalidId
  /-- elog "too many cryptographic kes". -/
  | tooManyKeys
  /-- Short read of a key file in `read_one_keyfile`. -/
  | corrupt
  /-- ereport "cluster passphrase does not match expected passphrase". -/
  | badPassphrase
  /-- ereport "passphrase must be more than KMGR_MIN_PASSPHRASE_LEN bytes". -/
  | passphraseTooShort
deriving DecidableEq, Repr

/-- One directory entry: a filename (C string as a char list), the file's
size in bytes, and the `CryptoKey` value stored in it. -/
structure DirEnt where
  name : List Char
  size : Nat
  key : List Nat
deriving DecidableEq, Repr

/-- The characters accepted by the source's
`strspn(de->d_name, "0123456789ABCDEF")` check. -/
def hexUpperChars : List Char := "0123456789ABCDEF".data

/-- Filename filter of `kmgr_get_cryptokeys`:
`strlen(de->d_name) == 4 && strspn(de->d_name, "0123456789ABCDEF") == 4`. -/
def matchesKeyFilename (name : List Char) : Bool :=
  name.length == 4 && name.all (fun c => decide (c ∈ hexUpperChars))

/-- Value of one uppercase hexadecimal digit, as `strtoul` assigns it. -/
def hexDigitVal (c : Char) : Nat :=
  if c.toNat ≤ 57 then c.toNat - 48 else c.toNat - 55

/-- Value of `strtoul(name, NULL, 16)` on a name that passed the filter:
every character is a hex digit, so the parse consumes the whole name. -/
def hexStrVal (name : List Char) : Nat :=
  name.foldl (fun a c => 16 * a + hexDigitVal c) 0

/-- Hexadecimal digit character for a value below 16 (`%X` conversion). -/
def hexDigitChar (n : Nat) : Char :=
  if n < 10 then Char.ofNat (48 + n) else Char.ofNat (55 + n)

/-- Filename `CryptoKeyFilePath` gives to key `id`: `%04X` of the id. -/
def hexName (id : Nat) : List Char :=
  [hexDigitChar (id / 4096 % 16), hexDigitChar (id / 256 % 16),
   hexDigitChar (id / 16 % 16), hexDigitChar (id % 16)]

/-- Enumeration loop of `kmgr_get_cryptokeys` over the directory entries.
For each entry whose name passes `matchesKeyFilename`: parse the id, fail
on `id >= KMGR_MAX_INTERNAL_KEYS` (the code's `id < 0` test on an unsigned
value is vacuous and dropped), fail when `KMGR_MAX_INTERNAL_KEYS` matching
entries were already read, read the file (`read_one_keyfile` demands a full
`sizeof(CryptoKey)` read, so a smaller file is a corrupt error), store the
key at index `id`, and count it.  Other names are skipped silently. -/
def getKeysLoop (entries : List DirEnt) (ks : List (List Nat)) (n : Nat) :
    Except KmgrErr (List (List Nat) × Nat) :=
  match entries with
  | [] => .ok (ks, n)
  | e :: rest =>
    if matchesKeyFilename e.name then
      if KMGR_MAX_INTERNAL_KEYS ≤ hexStrVal e.name then .error .invalidId
      else if KMGR_MAX_INTERNAL_KEYS ≤ n then .error .tooManyKeys
      else if e.size < sizeofCryptoKey then .error .corrupt
      else getKeysLoop rest (ks.set (hexStrVal e.name) e.key) (n + 1)
    else getKeysLoop rest ks n

/-- Function `kmgr_get_cryptokeys(path, &nkeys)`: allocate a zeroed array of
`KMGR_MAX_INTERNAL_KEYS` keys (`palloc0`) and fill it from the directory. -/
def kmgr_get_cryptokeys (entries : List DirEnt) :
    Except KmgrErr (List (List Nat) × Nat) :=
  getKeysLoop entries (List.replicate KMGR_MAX_INTERNAL_KEYS zeroKey) 0

/-- On-disk state seen by the key manager: the primary key directory
`pg_cryptokeys` (`KMGR_DIR`) and the rotation staging directory
`pg_cryptokeys_tmp` (`KMGR_TMP_DIR`); `none` means the directory is absent. -/
structure DiskState where
  primary : Option (List DirEnt)
  tmp : Option (List DirEnt)
deriving DecidableEq, Repr

/-- Recovery routine `recoverIncompleteRotation` from `kmgr.c`: if the temporary directory is
absent the last rotation completed and nothing happens.  If only the
temporary directory exists, rename it to the primary directory.  If both
exist, load the temporary directory; with `KMGR_MAX_INTERNAL_KEYS` keys the
rotation had finished wrapping, so remove the primary directory and rename,
otherwise remove the temporary directory and keep the old keys.  Errors of
the load abort recovery (`elog(ERROR)`), leaving both directories on disk. -/
def recoverIncompleteRotation (d : DiskState) : Except KmgrErr DiskState :=
  match d.tmp with
  | none => .ok d
  | some t =>
    match d.primary with
    | none => .ok ⟨some t, none⟩
    | some p =>
      match kmgr_get_cryptokeys t with
      | .error e => .error e
      | .ok (_, n) =>
        if n = KMGR_MAX_INTERNAL_KEYS then .ok ⟨some t, none⟩
        else .ok ⟨some p, none⟩

/-- Verification loop of `kmgr_verify_passphrase`: unwrap each wrapped key
in turn, writing the plaintext of key `i` into slot `i` of `out` as soon as
its unwrap succeeds (the C code writes straight into `keys_out`, and its
comment warns that `keys_out` changes even on failure); stop with `false`
at the first failed unwrap.  `unwrap` stands for `kmgr_unwrap_key`, i.e.
`pg_aead_decrypt` with the context derived from the candidate passphrase. -/
def verifyLoop {K : Type} (unwrap : K → List Nat → Option (List Nat))
    (ctx : K) : List (List Nat) → Nat → List (List Nat) →
    Bool × List (List Nat)
  | [], _, out => (true, out)
  | w :: rest, i, out =>
    match unwrap ctx w with
    | none => (false, out)
    | some p => verifyLoop unwrap ctx rest (i + 1) (out.set i p)

/-- Function `kmgr_verify_passphrase`: derive the KEK pair from the candidate
passphrase (`kmgr_derive_keys` + `pg_create_aead_ctx`, abstracted into
`derive`), then unwrap all keys into `out`. -/
def kmgr_verify_passphrase {K : Type} (derive : List Nat → K)
    (unwrap : K → List Nat → Option (List Nat)) (pass : List Nat)
    (keys_in : List (List Nat)) (out : List (List Nat)) :
    Bool × List (List Nat) :=
  verifyLoop unwrap (derive pass) keys_in 0 out

/-- Result of `InitializeKmgr`: the error raised (if any), the on-disk
state after recovery, and the contents of the shared key cache
(`KmgrShmem->intlKeys`) afterwards. -/
structure StartupResult where
  err : Option KmgrErr
  disk : DiskState
  cache : List (List Nat)
deriving DecidableEq, Repr

/-- Startup routine `InitializeKmgr` from `kmgr.c`: recover an interrupted rotation, load
the wrapped keys from the primary directory (opening the directory fails
with the missing-keystore error when it is absent), obtain the passphrase
(given here as the argument `pass`; the command invocation itself is I/O),
and verify it by unwrapping every key directly into the shared cache.  A
failed verification raises `badPassphrase`. -/
def InitializeKmgr {K : Type} (derive : List Nat → K)
    (unwrap : K → List Nat → Option (List Nat)) (d : DiskState)
    (cache : List (List Nat)) (pass : List Nat) : StartupResult :=
  match recoverIncompleteRotation d with
  | .error e => ⟨some e, d, cache⟩
  | .ok d' =>
    match d'.primary with
    | none => ⟨some .missingKeystore, d', cache⟩
    | some dir =>
      match kmgr_get_cryptokeys dir with
      | .error e => ⟨some e, d', cache⟩
      | .ok (keysWrap, _) =>
        match kmgr_verify_passphrase derive unwrap pass keysWrap cache with
        | (true, cache') => ⟨none, d', cache'⟩
        | (false, cache') => ⟨some .badPassphrase, d', cache'⟩

/-- Minimum passphrase length.  Modelled from the spec:
`KMGR_MIN_PASSPHRASE_LEN` lives in a header outside the source files; the
spec only requires some positive lower bound, whose value the claims never
use. -/
def KMGR_MIN_PASSPHRASE_LEN : Nat := 8

/-- Directory holding the single wrapped key `w` under its `%04X` name,
as `KmgrSaveCryptoKeys`/`save_all` lays it out. -/
def stdKeyDir (w : List Nat) : List DirEnt :=
  [⟨hexName 0, sizeofCryptoKey, w⟩]

/-- Rotation `pg_rotate_cluster_passphrase`.  Modelled from the spec
(§4.5.3) and the function's own step comment, because the body between the
feature check and the return is a student-TODO stub: recover any previous
incomplete rotation, obtain and length-check the new passphrase, derive the
new KEK, re-wrap the cached plaintext DEKs, save them into the temporary
directory, remove the primary directory and rename.  The returned state is
the on-disk state after a crash-free run. -/
def pg_rotate_cluster_passphrase {K : Type} (derive : List Nat → K)
    (wrap : K → List Nat → List Nat) (d : DiskState)
    (cache : List (List Nat)) (newPass : List Nat) :
    Except KmgrErr DiskState :=
  match recoverIncompleteRotation d with
  | .error e => .error e
  | .ok _ =>
    if newPass.length < KMGR_MIN_PASSPHRASE_LEN then .error .passphraseTooShort
    else
      let ctx := derive newPass
      let newkeys := cache.map (wrap ctx)
      let tmpDir := (List.range KMGR_MAX_INTERNAL_KEYS).map
        (fun i => (⟨hexName i, sizeofCryptoKey, newkeys.getD i zeroKey⟩ : DirEnt))
      .ok ⟨some tmpDir, none⟩

/-- All on-disk states reachable by crashing after a prefix of the rotation
protocol's steps, starting from a healthy state whose primary directory
holds the wrapped key `wOld`, with `wNew` the newly wrapped key: before
anything is written; after `save_all` created the temporary directory but
wrote no file; after the key file was written into it; in the middle of
`rmtree` on the primary directory (file gone, directory still there); after
`rmtree`; and after the final rename. -/
def rotationCrashStates (wOld wNew : List Nat) : List DiskState :=
  [⟨some (stdKeyDir wOld), none⟩,
   ⟨some (stdKeyDir wOld), some []⟩,
   ⟨some (stdKeyDir wOld), some (stdKeyDir wNew)⟩,
   ⟨some [], some (stdKeyDir wNew)⟩,
   ⟨none, some (stdKeyDir wNew)⟩,
   ⟨some (stdKeyDir wNew), none⟩]

/-- A directory decrypts under context `ctx` when loading it yields a full
complement of `KMGR_MAX_INTERNAL_KEYS` wrapped keys, every one of which
unwraps successfully under `ctx`. -/
def dirDecryptsUnder {K : Type} (unwrap : K → List Nat → Option (List Nat))
    (ctx : K) (dir : List DirEnt) : Prop :=
  ∃ ks, kmgr_get_cryptokeys dir = .ok (ks, KMGR_MAX_INTERNAL_KEYS) ∧
    ∀ w ∈ ks, (unwrap ctx w).isSome

/-- Accessor `KmgrGetKey` as the source has it: the body is a student-TODO stub that
asserts `id < KMGR_MAX_INTERNAL_KEYS` (with no lower bound on the signed
`id`) and returns the initialised `NULL`, regardless of the cache. -/
def KmgrGetKey (cache : List (List Nat)) (id : Int) : Option (List Nat) :=
  none

/-- Size of the `command` buffer in `kmgr_run_cluster_passphrase_command`.
Modelled from the spec: `MAXPGPATH` is a host header constant (1024). -/
def MAXPGPATH : Nat := 1024

/-- The fixed prompt substituted for `%p`. -/
def KMGR_PROMPT_MSG : String := "Enter database encryption pass phrase:"

/-- Bytes of a string, as the C code sees them. -/
def strBytes (s : String) : List Nat := s.data.map Char.toNat

/-- Bytes of the prompt message (38 characters, no terminator). -/
def promptBytes : List Nat := strBytes KMGR_PROMPT_MSG

/-- Bytes actually deposited by
`StrNCpy(dp, KMGR_PROMPT_MSG, strlen(KMGR_PROMPT_MSG))`: the `StrNCpy`
macro runs `strncpy(dst, src, len)` and then stores a terminator at
`dst[len-1]`, so with `len = strlen(src)` the final character of the
prompt (the colon) is overwritten by a NUL byte. -/
def promptCopied : List Nat := promptBytes.take (promptBytes.length - 1) ++ [0]

/-- One bounds-checked byte write, `if (dp < endp) *dp++ = b;` with
`endp = command + MAXPGPATH - 1`.  Every write in the loop lands at the
running offset `dp`, so the buffer contents are exactly the accumulated
list and `dp` is its length. -/
def appendChecked (out : List Nat) (b : Nat) : List Nat :=
  if out.length < MAXPGPATH - 1 then out ++ [b] else out

/-- The template-expansion loop of `kmgr_run_cluster_passphrase_command`.
`%p` deposits `promptCopied` without any bounds check (`StrNCpy` writes all
38 bytes and `dp` advances by `strlen(KMGR_PROMPT_MSG)`); `%%` writes one
checked `%`; any other `%` (including a trailing one) takes the `default`
branch, which writes the `%` itself and leaves the following character for
the next iteration.  Byte 37 is `%`, byte 112 is `p`. -/
def buildCmd (tmpl out : List Nat) : List Nat :=
  match tmpl, out with
  | [], out => out
  | [c], out => appendChecked out c
  | 37 :: c :: rest, out =>
    if c = 112 then buildCmd rest (out ++ promptCopied)
    else if c = 37 then buildCmd rest (appendChecked out 37)
    else buildCmd (c :: rest) (appendChecked out 37)
  | c :: rest, out => buildCmd rest (appendChecked out c)

/-- The command string the shell receives: the loop's output terminated by
the final `*dp = '\0'`, read as a C string — everything up to the first
NUL byte. -/
def commandString (tmpl : List Nat) : List Nat :=
  (buildCmd tmpl []).takeWhile (fun b => b != 0)

/-- The byte sequence the expansion loop deposits when no write is ever
bounds-checked away: the loop's three cases without the capacity test. -/
def substBytes (tmpl : List Nat) : List Nat :=
  match tmpl with
  | [] => []
  | [c] => [c]
  | 37 :: c :: rest =>
    if c = 112 then promptCopied ++ substBytes rest
    else if c = 37 then 37 :: substBytes rest
    else 37 :: substBytes (c :: rest)
  | c :: rest => c :: substBytes rest

/-- Substitution as the specification's words describe it, for comparison:
`%p` becomes the exact prompt string, `%%` a single `%`, any other `%X`
just `X`, and every other character is copied. -/
def claimSubst (tmpl : List Nat) : List Nat :=
  match tmpl with
  | [] => []
  | 37 :: 112 :: rest => promptBytes ++ claimSubst rest
  | 37 :: 37 :: rest => 37 :: claimSubst rest
  | 37 :: c :: rest => c :: claimSubst rest
  | c :: rest => c :: claimSubst rest

/-- Example command template `echo %p!`. -/
def exTemplate : List Nat := strBytes "echo %p!"

/-- Validity of a wrapped-key file in the specification's sense (§4.5.4):
the name is of interest, the id parses in range, and the file has exactly
the full record size. -/
def specValidKeyFile (e : DirEnt) : Bool :=
  matchesKeyFilename e.name &&
    decide (hexStrVal e.name < KMGR_MAX_INTERNAL_KEYS) &&
    (e.size == sizeofCryptoKey)

/-- Concrete AEAD instance used to witness the abstract theorems: the
context is a number prepended on wrap and checked on unwrap. -/
def mkWrap (k : Nat) (p : List Nat) : List Nat := k :: p

/-- Unwrap for `mkWrap`: succeeds exactly under the wrapping context. -/
def mkUnwrap (k : Nat) (w : List Nat) : Option (List Nat) :=
  match w with
  | [] => none
  | k' :: p => if k' = k then some p else none

/-- A successful enumeration never changes the length of the key array. -/
theorem getKeysLoop_length (entries : List DirEnt) :
    ∀ ks n ks' n', getKeysLoop entries ks n = .ok (ks', n') →
      ks'.length = ks.length := by
  induction entries with
  | nil =>
    intro ks n ks' n' h
    simp [getKeysLoop] at h
    simp [h.1]
  | cons e rest ih =>
    intro ks n ks' n' h
    simp only [getKeysLoop] at h
    split at h
    · split at h
      · exact absurd h (by simp)
      · split at h
        · exact absurd h (by simp)
        · split at h
          · exact absurd h (by simp)
          · have := ih _ _ _ _ h
            simpa [List.length_set] using this
    · exact ih _ _ _ _ h

/-- On success, the returned count grows by exactly the number of entries
whose filename passes the filter. -/
theorem getKeysLoop_count (entries : List DirEnt) :
    ∀ ks n ks' n', getKeysLoop entries ks n = .ok (ks', n') →
      n' = n + (entries.filter (fun e => matchesKeyFilename e.name)).length := by
  induction entries with
  | nil =>
    intro ks n ks' n' h
    simp [getKeysLoop] at h
    simp [h.2]
  | cons e rest ih =>
    intro ks n ks' n' h
    simp only [getKeysLoop] at h
    split at h
    · split at h
      · exact absurd h (by simp)
      · split at h
        · exact absurd h (by simp)
        · split at h
          · exact absurd h (by simp)
          · have := ih _ _ _ _ h
            simp only [List.filter_cons]
            rename_i hm _ _ _
            simp [hm]
            omega
    · have := ih _ _ _ _ h
      simp only [List.filter_cons]
      rename_i hm
      simp [hm]
      omega

/-- Entries whose names do not pass the filter never influence the loop. -/
theorem getKeysLoop_filter (entries : List DirEnt) :
    ∀ ks n, getKeysLoop entries ks n =
      getKeysLoop (entries.filter (fun e => matchesKeyFilename e.name)) ks n := by
  induction entries with
  | nil => intro ks n; simp
  | cons e rest ih =>
    intro ks n
    by_cases hm : matchesKeyFilename e.name
    · simp only [List.filter_cons, hm, if_pos]
      simp only [getKeysLoop, hm, if_pos]
      split
      · rfl
      · split
        · rfl
        · split
          · rfl
          · exact ih _ _
    · simp only [List.filter_cons, hm]
      simp only [getKeysLoop, hm]
      simp only [if_neg, Bool.false_eq_true, if_false]
      exact ih _ _

/-- If no entry passes the filter, the loop returns its inputs unchanged. -/
theorem getKeysLoop_no_match (entries : List DirEnt)
    (h : ∀ e ∈ entries, matchesKeyFilename e.name = false) :
    ∀ ks n, getKeysLoop entries ks n = .ok (ks, n) := by
  induction entries with
  | nil => intro ks n; simp [getKeysLoop]
  | cons e rest ih =>
    intro ks n
    have he := h e (by simp)
    simp only [getKeysLoop, he, Bool.false_eq_true, if_false]
    exact ih (fun e' he' => h e' (by simp [he'])) ks n

/-- A matching entry whose parsed id is out of range forces an error. -/
theorem getKeysLoop_id_out_of_range (entries : List DirEnt)
    (h : ∃ e ∈ entries, matchesKeyFilename e.name = true ∧
      KMGR_MAX_INTERNAL_KEYS ≤ hexStrVal e.name) :
    ∀ ks n, ∃ err, getKeysLoop entries ks n = .error err := by
  induction entries with
  | nil => simp at h
  | cons e rest ih =>
    intro ks n
    simp only [getKeysLoop]
    rcases h with ⟨e', he', hm', hr'⟩
    rcases List.mem_cons.mp he' with rfl | hmem
    · simp [hm', hr']
    · by_cases hm : matchesKeyFilename e.name
      · simp only [hm, if_pos]
        split
        · exact ⟨_, rfl⟩
        · split
          · exact ⟨_, rfl⟩
          · split
            · exact ⟨_, rfl⟩
            · exact ih ⟨e', hmem, hm', hr'⟩ _ _
      · simp only [hm, Bool.false_eq_true, if_false]
        exact ih ⟨e', hmem, hm', hr'⟩ _ _

/-- Once the counter has reached the maximum, any further matching entry
forces an error. -/
theorem getKeysLoop_over_count (entries : List DirEnt)
    (h : ∃ e ∈ entries, matchesKeyFilename e.name = true) :
    ∀ ks n, KMGR_MAX_INTERNAL_KEYS ≤ n →
      ∃ err, getKeysLoop entries ks n = .error err := by
  induction entries with
  | nil => simp at h
  | cons e rest ih =>
    intro ks n hn
    simp only [getKeysLoop]
    rcases h with ⟨e', he', hm'⟩
    rcases List.mem_cons.mp he' with rfl | hmem
    · simp only [hm', if_pos]
      split
      · exact ⟨_, rfl⟩
      · simp [hn]
    · by_cases hm : matchesKeyFilename e.name
      · simp only [hm, if_pos]
        split
        · exact ⟨_, rfl⟩
        · simp [hn]
      · simp only [hm, Bool.false_eq_true, if_false]
        exact ih ⟨e', hmem, hm'⟩ _ _ hn

/-- Starting at or below the maximum, a successful loop ends at or below
the maximum: the count check precedes every increment. -/
theorem getKeysLoop_count_le (entries : List DirEnt) :
    ∀ ks n ks' n', n ≤ KMGR_MAX_INTERNAL_KEYS →
      getKeysLoop entries ks n = .ok (ks', n') →
      n' ≤ KMGR_MAX_INTERNAL_KEYS := by
  induction entries with
  | nil =>
    intro ks n ks' n' hn h
    simp [getKeysLoop] at h
    omega
  | cons e rest ih =>
    intro ks n ks' n' hn h
    simp only [getKeysLoop] at h
    split at h
    · split at h
      · exact absurd h (by simp)
      · split at h
        · exact absurd h (by simp)
        · split at h
          · exact absurd h (by simp)
          · rename_i hcnt _
            exact ih _ _ _ _ (by omega) h
    · exact ih _ _ _ _ hn h

/-- Starting from a zero count, a successful enumeration pins down the key
array: any matching entry has parsed id 0 and its key occupies slot 0, and
no second matching entry can exist. -/
theorem getKeysLoop_success_slot (entries : List DirEnt) :
    ∀ ks ks' n', getKeysLoop entries ks 0 = .ok (ks', n') →
      ∀ e ∈ entries, matchesKeyFilename e.name = true →
        hexStrVal e.name = 0 ∧ ks' = ks.set 0 e.key := by
  induction entries with
  | nil => intro ks ks' n' _ e he; simp at he
  | cons e0 rest ih =>
    intro ks ks' n' h e he hme
    simp only [getKeysLoop] at h
    by_cases hm0 : matchesKeyFilename e0.name
    · simp only [hm0, if_pos] at h
      split at h
      · exact absurd h (by simp)
      · split at h
        · rename_i hcnt
          exact absurd hcnt (by decide)
        · split at h
          · exact absurd h (by simp)
          · rename_i hrange _ _
            have hv0 : hexStrVal e0.name = 0 := by
              simp [KMGR_MAX_INTERNAL_KEYS] at hrange
              omega
            have hnomatch : ∀ e' ∈ rest, matchesKeyFilename e'.name = false := by
              intro e' he'
              by_contra hc
              have hc' : matchesKeyFilename e'.name = true := by
                simpa using hc
              rcases getKeysLoop_over_count rest ⟨e', he', hc'⟩
                  (ks.set (hexStrVal e0.name) e0.key) 1 (by simp [KMGR_MAX_INTERNAL_KEYS]) with
                ⟨err, herr⟩
              rw [herr] at h
              exact absurd h (by simp)
            have hres := getKeysLoop_no_match rest hnomatch
              (ks.set (hexStrVal e0.name) e0.key) 1
            rw [hres] at h
            simp only [Except.ok.injEq, Prod.mk.injEq] at h
            rcases List.mem_cons.mp he with rfl | hmem
            · exact ⟨hv0, by rw [← h.1, hv0]⟩
            · exact absurd hme (by simp [hnomatch e hmem])
    · simp only [hm0, Bool.false_eq_true, if_false] at h
      rcases List.mem_cons.mp he with rfl | hmem
      · exact absurd hme (by simp [hm0])
      · exact ih _ _ _ h e hmem hme

/-- An uppercase hexadecimal character with digit value zero is `0`. -/
theorem hexDigitVal_eq_zero {c : Char} (hc : c ∈ hexUpperChars)
    (hv : hexDigitVal c = 0) : c = '0' := by
  have hlist : hexUpperChars =
      ['0', '1', '2', '3', '4', '5', '6', '7', '8', '9',
       'A', 'B', 'C', 'D', 'E', 'F'] := rfl
  rw [hlist] at hc
  simp only [List.mem_cons, List.not_mem_nil, or_false] at hc
  rcases hc with rfl|rfl|rfl|rfl|rfl|rfl|rfl|rfl|rfl|rfl|rfl|rfl|rfl|rfl|rfl|rfl
  · rfl
  all_goals exact absurd hv (by decide)

/-- A failing verification of a single wrapped key leaves the output slots
untouched: the loop fails before its first write. -/
theorem verifyLoop_single_fail {K : Type}
    (unwrap : K → List Nat → Option (List Nat)) (ctx : K) (w : List Nat)
    (out : List (List Nat))
    (h : (verifyLoop unwrap ctx [w] 0 out).1 = false) :
    (verifyLoop unwrap ctx [w] 0 out).2 = out := by
  cases hu : unwrap ctx w with
  | none => simp [verifyLoop, hu]
  | some p => simp [verifyLoop, hu] at h


/-- Helper: recovery with no temporary directory present is the identity
(first row of the recovery table). -/
theorem recover_eq_tmp_absent (p : Option (List DirEnt)) :
    recoverIncompleteRotation ⟨p, none⟩ = .ok ⟨p, none⟩ := rfl

/-- Helper: recovery with only the temporary directory present renames it
(second row of the recovery table). -/
theorem recover_eq_primary_absent (t : List DirEnt) :
    recoverIncompleteRotation ⟨none, some t⟩ = .ok ⟨some t, none⟩ := rfl

/-- Helper: recovery with both directories present is decided by loading
the temporary directory (third row of the recovery table). -/
theorem recover_eq_both (p t : List DirEnt) :
    recoverIncompleteRotation ⟨some p, some t⟩ =
      match kmgr_get_cryptokeys t with
      | .error e => .error e
      | .ok (_, n) =>
        if n = KMGR_MAX_INTERNAL_KEYS then .ok ⟨some t, none⟩
        else .ok ⟨some p, none⟩ := rfl

/-- Helper: a successfully recovered state has no temporary directory. -/
theorem recover_result_tmp_none (d d' : DiskState)
    (h : recoverIncompleteRotation d = .ok d') : d'.tmp = none := by
  obtain ⟨p, t⟩ := d
  cases t with
  | none =>
    rw [recover_eq_tmp_absent] at h
    simp only [Except.ok.injEq] at h
    rw [← h]
  | some tdir =>
    cases p with
    | none =>
      rw [recover_eq_primary_absent] at h
      simp only [Except.ok.injEq] at h
      rw [← h]
    | some pdir =>
      rw [recover_eq_both] at h
      cases hk : kmgr_get_cryptokeys tdir with
      | error e => rw [hk] at h; exact absurd h (by simp)
      | ok r =>
        obtain ⟨ks, n⟩ := r
        rw [hk] at h
        dsimp only at h
        split at h <;> (simp only [Except.ok.injEq] at h; rw [← h])

/-- C9: `recoverIncompleteRotation` is idempotent.  Every successful run
removes the temporary directory, and a run without a temporary directory
does nothing (part two); hence running recovery on its own output equals
running it once (part one). -/
theorem recover_rotation_idempotent :
    (∀ d : DiskState,
      (recoverIncompleteRotation d).bind recoverIncompleteRotation =
        recoverIncompleteRotation d) ∧
    (∀ d d' : DiskState, recoverIncompleteRotation d = .ok d' →
      d'.tmp = none ∧ recoverIncompleteRotation d' = .ok d') := by
  have h2 : ∀ d d' : DiskState, recoverIncompleteRotation d = .ok d' →
      d'.tmp = none ∧ recoverIncompleteRotation d' = .ok d' := by
    intro d d' h
    have ht := recover_result_tmp_none d d' h
    obtain ⟨p', t'⟩ := d'
    simp only at ht
    subst ht
    exact ⟨rfl, recover_eq_tmp_absent p'⟩
  refine ⟨?_, h2⟩
  intro d
  cases h : recoverIncompleteRotation d with
  | error e => rfl
  | ok d' =>
    have := (h2 d d' h).2
    simpa [Except.bind] using this

/-- Witness for C9's second part at a concrete state: recovery of a
healthy state succeeds and its output is a fixed point. -/
theorem recover_rotation_idempotent_witness :
    (⟨some [], none⟩ : DiskState).tmp = none ∧
    recoverIncompleteRotation ⟨some [], none⟩ = .ok ⟨some [], none⟩ :=
  recover_rotation_idempotent.2 ⟨some [], none⟩ ⟨some [], none⟩ (by decide)

/-- C7: when neither directory exists, startup fails with the
missing-keystore error before the passphrase is ever used: the result does
not depend on the key-derivation or unwrap primitives or on the
passphrase, and the shared cache is untouched, so passphrase verification
is never reached. -/
theorem startup_missing_keystore {K : Type} (derive : List Nat → K)
    (unwrap : K → List Nat → Option (List Nat)) (cache : List (List Nat))
    (pass : List Nat) :
    InitializeKmgr derive unwrap ⟨none, none⟩ cache pass =
      ⟨some .missingKeystore, ⟨none, none⟩, cache⟩ := rfl

/-- C3: a startup failure never installs any key in the shared cache: on
every error — in particular `badPassphrase` from a failed unwrap — the
cache still holds exactly its previous contents, so plaintext lands in the
cache only when every unwrap succeeded. -/
theorem startup_no_partial_cache {K : Type} (derive : List Nat → K)
    (unwrap : K → List Nat → Option (List Nat)) (d : DiskState)
    (cache : List (List Nat)) (pass : List Nat) (e : KmgrErr)
    (h : (InitializeKmgr derive unwrap d cache pass).err = some e) :
    (InitializeKmgr derive unwrap d cache pass).cache = cache := by
  unfold InitializeKmgr at h ⊢
  cases hr : recoverIncompleteRotation d with
  | error e' => rfl
  | ok d' =>
    rw [hr] at h
    obtain ⟨dp, dt⟩ := d'
    cases dp with
    | none => rfl
    | some dir =>
      dsimp only at h ⊢
      cases hk : kmgr_get_cryptokeys dir with
      | error e' => rfl
      | ok r =>
        rw [hk] at h
        obtain ⟨ksW, n⟩ := r
        have hlen : ksW.length = KMGR_MAX_INTERNAL_KEYS := by
          have := getKeysLoop_length dir
            (List.replicate KMGR_MAX_INTERNAL_KEYS zeroKey) 0 ksW n hk
          simpa using this
        rcases List.length_eq_one.mp hlen with ⟨w, rfl⟩
        dsimp only at h ⊢
        cases hv : kmgr_verify_passphrase derive unwrap pass [w] cache with
        | mk b cache' =>
          rw [hv] at h
          cases b with
          | true => exact absurd h (by simp)
          | false =>
            dsimp only
            have hfail : (verifyLoop unwrap (derive pass) [w] 0 cache).1 = false := by
              have hv' : verifyLoop unwrap (derive pass) [w] 0 cache =
                  (false, cache') := hv
              rw [hv']
            have h2 := verifyLoop_single_fail unwrap (derive pass) w cache hfail
            have hv' : verifyLoop unwrap (derive pass) [w] 0 cache =
                (false, cache') := hv
            rw [hv'] at h2
            exact h2

/-- Witness for C3: with an unwrap primitive that always fails, startup on
a healthy one-key store raises `badPassphrase` and leaves the previously
zeroed cache exactly as it was. -/
theorem startup_no_partial_cache_witness :
    (InitializeKmgr (K := Nat) (fun _ => 0) (fun _ _ => none)
      ⟨some (stdKeyDir [9]), none⟩ [[1, 2]] [3]).err =
        some .badPassphrase ∧
    (InitializeKmgr (K := Nat) (fun _ => 0) (fun _ _ => none)
      ⟨some (stdKeyDir [9]), none⟩ [[1, 2]] [3]).cache = [[1, 2]] :=
  ⟨by decide,
   startup_no_partial_cache (fun _ => 0) (fun _ _ => none)
     ⟨some (stdKeyDir [9]), none⟩ [[1, 2]] [3] .badPassphrase (by decide)⟩

/-- C2 (amended): the recovery table as the code implements it.  With the
temporary directory absent nothing happens; with only the temporary
directory present it is renamed to the primary directory; with both
present the temporary directory is loaded and, when the load succeeds, its
key count — which equals the number of filename-matching entries — decides:
a full complement swaps the directories, fewer keys removes the temporary
directory and keeps the primary one.  When loading the temporary directory
fails (out-of-range id, over-full directory, or short key file), recovery
aborts with that error and both directories are left in place, rather than
removing the temporary directory as the claim stated. -/
theorem recover_rotation_table :
    (∀ d : DiskState, d.tmp = none → recoverIncompleteRotation d = .ok d) ∧
    (∀ t, recoverIncompleteRotation ⟨none, some t⟩ = .ok ⟨some t, none⟩) ∧
    (∀ p t ks n, kmgr_get_cryptokeys t = .ok (ks, n) →
      n = (t.filter (fun e => matchesKeyFilename e.name)).length ∧
      recoverIncompleteRotation ⟨some p, some t⟩ =
        .ok (if n = KMGR_MAX_INTERNAL_KEYS then ⟨some t, none⟩
             else ⟨some p, none⟩)) ∧
    (∀ p t e, kmgr_get_cryptokeys t = .error e →
      recoverIncompleteRotation ⟨some p, some t⟩ = .error e) := by
  refine ⟨?_, ?_, ?_, ?_⟩
  · intro d h
    obtain ⟨p, t⟩ := d
    simp only at h
    subst h
    exact recover_eq_tmp_absent p
  · intro t
    exact recover_eq_primary_absent t
  · intro p t ks n h
    constructor
    · have := getKeysLoop_count t
        (List.replicate KMGR_MAX_INTERNAL_KEYS zeroKey) 0 ks n h
      simpa using this
    · rw [recover_eq_both, h]
      dsimp only
      split <;> rfl
  · intro p t e h
    rw [recover_eq_both, h]

/-- Witness for C2's amended table, exercising all four rows at concrete
states: absent temporary directory, absent primary directory, both present
with a complete and with an empty temporary directory, and both present
with an unloadable temporary directory. -/
theorem recover_rotation_table_witness :
    recoverIncompleteRotation ⟨some [], none⟩ = .ok ⟨some [], none⟩ ∧
    recoverIncompleteRotation ⟨none, some (stdKeyDir [3])⟩ =
      .ok ⟨some (stdKeyDir [3]), none⟩ ∧
    recoverIncompleteRotation ⟨some (stdKeyDir [5]), some (stdKeyDir [3])⟩ =
      .ok ⟨some (stdKeyDir [3]), none⟩ ∧
    recoverIncompleteRotation ⟨some (stdKeyDir [5]), some []⟩ =
      .ok ⟨some (stdKeyDir [5]), none⟩ ∧
    recoverIncompleteRotation
        ⟨some (stdKeyDir [5]), some [⟨('0' :: '0' :: '0' :: '1' :: []), sizeofCryptoKey, [7]⟩]⟩ =
      .error .invalidId := by
  refine ⟨recover_rotation_table.1 ⟨some [], none⟩ rfl,
          recover_rotation_table.2.1 (stdKeyDir [3]), ?_, ?_, ?_⟩
  · have := (recover_rotation_table.2.2.1 (stdKeyDir [5]) (stdKeyDir [3])
      [[3]] 1 (by decide)).2
    simpa using this
  · have := (recover_rotation_table.2.2.1 (stdKeyDir [5]) [] [zeroKey] 0
      (by decide)).2
    simpa using this
  · exact recover_rotation_table.2.2.2 (stdKeyDir [5])
      [⟨('0' :: '0' :: '0' :: '1' :: []), sizeofCryptoKey, [7]⟩] .invalidId
      (by decide)

/-- C2 as stated is refuted: with the primary directory healthy and the
temporary directory holding a single full-size file named `0001` — which is
not a valid wrapped-key file, so the temporary directory has fewer than
`KMGR_MAX_INTERNAL_KEYS` valid files and the claim requires removing the
temporary directory and keeping the primary one — recovery instead aborts
with the invalid-identifier error and removes nothing. -/
theorem recover_rotation_claim_counterexample :
    ([(⟨('0' :: '0' :: '0' :: '1' :: []), sizeofCryptoKey, [7]⟩ : DirEnt)].filter
        specValidKeyFile).length = 0 ∧
    recoverIncompleteRotation
        ⟨some (stdKeyDir [5]),
         some [⟨('0' :: '0' :: '0' :: '1' :: []), sizeofCryptoKey, [7]⟩]⟩ =
      .error .invalidId ∧
    recoverIncompleteRotation
        ⟨some (stdKeyDir [5]),
         some [⟨('0' :: '0' :: '0' :: '1' :: []), sizeofCryptoKey, [7]⟩]⟩ ≠
      .ok ⟨some (stdKeyDir [5]), none⟩ := by
  decide

/-- C10: a successful `kmgr_get_cryptokeys` always returns the full
`KMGR_MAX_INTERNAL_KEYS`-slot array allocated zeroed by `palloc0`, with the
key of any matching file stored at the index its name parses to (slot 0,
the only id in range) — a fact stated via membership, hence independent of
the enumeration order — while the returned count is the number of matching
entries; if no entry matches, every slot is still the zero key. -/
theorem load_all_indexed_by_id (entries : List DirEnt)
    (ks : List (List Nat)) (n : Nat)
    (h : kmgr_get_cryptokeys entries = .ok (ks, n)) :
    ks.length = KMGR_MAX_INTERNAL_KEYS ∧
    n = (entries.filter (fun e => matchesKeyFilename e.name)).length ∧
    (∀ e ∈ entries, matchesKeyFilename e.name = true →
      hexStrVal e.name = 0 ∧ ks = [e.key]) ∧
    ((∀ e ∈ entries, matchesKeyFilename e.name = false) →
      ks = [zeroKey] ∧ n = 0) := by
  refine ⟨?_, ?_, ?_, ?_⟩
  · have := getKeysLoop_length entries
      (List.replicate KMGR_MAX_INTERNAL_KEYS zeroKey) 0 ks n h
    simpa using this
  · have := getKeysLoop_count entries
      (List.replicate KMGR_MAX_INTERNAL_KEYS zeroKey) 0 ks n h
    simpa using this
  · intro e he hme
    have := getKeysLoop_success_slot entries
      (List.replicate KMGR_MAX_INTERNAL_KEYS zeroKey) ks n h e he hme
    refine ⟨this.1, ?_⟩
    rw [this.2]
    rfl
  · intro hno
    have := getKeysLoop_no_match entries hno
      (List.replicate KMGR_MAX_INTERNAL_KEYS zeroKey) 0
    rw [show kmgr_get_cryptokeys entries =
        getKeysLoop entries (List.replicate KMGR_MAX_INTERNAL_KEYS zeroKey) 0
      from rfl] at h
    rw [this] at h
    simp only [Except.ok.injEq, Prod.mk.injEq] at h
    exact ⟨by rw [← h.1]; rfl, h.2.symm⟩

/-- Witness for C10 on a concrete directory holding the key file `0000`
and an ignored artifact `junk`: the loaded array is `[[4]]`, the count is
one, and the theorem's conclusions hold there. -/
theorem load_all_indexed_by_id_witness :
    kmgr_get_cryptokeys
        [⟨hexName 0, sizeofCryptoKey, [4]⟩,
         ⟨('j' :: 'u' :: 'n' :: 'k' :: []), 3, [9]⟩] = .ok ([[4]], 1) ∧
    ([[4]] : List (List Nat)).length = KMGR_MAX_INTERNAL_KEYS :=
  ⟨by decide,
   (load_all_indexed_by_id
     [⟨hexName 0, sizeofCryptoKey, [4]⟩,
      ⟨('j' :: 'u' :: 'n' :: 'k' :: []), 3, [9]⟩] [[4]] 1 (by decide)).1⟩

/-- C5: filename handling of `kmgr_get_cryptokeys`.  (1) The names that
are of interest with an in-range id are exactly the strings of four
uppercase hexadecimal characters whose value is below
`KMGR_MAX_INTERNAL_KEYS` — with one key, precisely `0000`.  (2) Entries
whose names do not match the pattern never influence the result.  (3) A
matching name with in-range id is accepted and its full-size file is read
into the result.  (4) A matching name with out-of-range id forces an
error.  (5) More than `KMGR_MAX_INTERNAL_KEYS` matching entries force an
error. -/
theorem filename_parsing_exact :
    (∀ name : List Char,
      (matchesKeyFilename name = true ∧
        hexStrVal name < KMGR_MAX_INTERNAL_KEYS) ↔ name = hexName 0) ∧
    (∀ entries : List DirEnt,
      kmgr_get_cryptokeys entries =
        kmgr_get_cryptokeys
          (entries.filter (fun e => matchesKeyFilename e.name))) ∧
    (∀ (name : List Char) (k : List Nat),
      matchesKeyFilename name = true →
      hexStrVal name < KMGR_MAX_INTERNAL_KEYS →
      kmgr_get_cryptokeys [⟨name, sizeofCryptoKey, k⟩] = .ok ([k], 1)) ∧
    (∀ entries : List DirEnt,
      (∃ e ∈ entries, matchesKeyFilename e.name = true ∧
        KMGR_MAX_INTERNAL_KEYS ≤ hexStrVal e.name) →
      ∃ err, kmgr_get_cryptokeys entries = .error err) ∧
    (∀ entries : List DirEnt,
      KMGR_MAX_INTERNAL_KEYS <
        (entries.filter (fun e => matchesKeyFilename e.name)).length →
      ∃ err, kmgr_get_cryptokeys entries = .error err) := by
  refine ⟨?_, ?_, ?_, ?_, ?_⟩
  · intro name
    constructor
    · rintro ⟨hm, hv⟩
      unfold matchesKeyFilename at hm
      simp only [Bool.and_eq_true, beq_iff_eq, List.all_eq_true,
        decide_eq_true_eq] at hm
      obtain ⟨hlen, hall⟩ := hm
      rcases name with _ | ⟨a, _ | ⟨b, _ | ⟨c, _ | ⟨d, t⟩⟩⟩⟩
      · simp at hlen
      · simp at hlen
      · simp at hlen
      · simp at hlen
      · have ht : t = [] := by
          simp only [List.length_cons] at hlen
          have : t.length = 0 := by omega
          exact List.length_eq_zero.mp this
        subst ht
        simp only [hexStrVal, List.foldl, KMGR_MAX_INTERNAL_KEYS] at hv
        have ha : hexDigitVal a = 0 := by omega
        have hb : hexDigitVal b = 0 := by omega
        have hc : hexDigitVal c = 0 := by omega
        have hd : hexDigitVal d = 0 := by omega
        have ea := hexDigitVal_eq_zero (hall a (by simp)) ha
        have eb := hexDigitVal_eq_zero (hall b (by simp)) hb
        have ec := hexDigitVal_eq_zero (hall c (by simp)) hc
        have ed := hexDigitVal_eq_zero (hall d (by simp)) hd
        subst ea; subst eb; subst ec; subst ed
        decide
    · rintro rfl
      exact ⟨by decide, by decide⟩
  · intro entries
    exact getKeysLoop_filter entries
      (List.replicate KMGR_MAX_INTERNAL_KEYS zeroKey) 0
  · intro name k hm hv
    have hv0 : hexStrVal name = 0 := by
      simp only [KMGR_MAX_INTERNAL_KEYS] at hv
      omega
    show getKeysLoop [⟨name, sizeofCryptoKey, k⟩]
      (List.replicate KMGR_MAX_INTERNAL_KEYS zeroKey) 0 = .ok ([k], 1)
    simp [getKeysLoop, hm, hv0, KMGR_MAX_INTERNAL_KEYS, zeroKey]
  · intro entries he
    exact getKeysLoop_id_out_of_range entries he
      (List.replicate KMGR_MAX_INTERNAL_KEYS zeroKey) 0
  · intro entries hgt
    cases h : kmgr_get_cryptokeys entries with
    | error err => exact ⟨err, rfl⟩
    | ok r =>
      obtain ⟨ks, n⟩ := r
      have hc := getKeysLoop_count entries
        (List.replicate KMGR_MAX_INTERNAL_KEYS zeroKey) 0 ks n h
      have hle := getKeysLoop_count_le entries
        (List.replicate KMGR_MAX_INTERNAL_KEYS zeroKey) 0 ks n
        (by omega) h
      omega

/-- Witness for C5 at concrete names and directories: `0000` is accepted
and read, `0001` is rejected as out of range, and a directory with two
matching entries fails. -/
theorem filename_parsing_exact_witness :
    kmgr_get_cryptokeys [⟨hexName 0, sizeofCryptoKey, [8]⟩] = .ok ([[8]], 1) ∧
    (∃ err, kmgr_get_cryptokeys
      [⟨('0' :: '0' :: '0' :: '1' :: []), sizeofCryptoKey, [8]⟩] =
        .error err) ∧
    (∃ err, kmgr_get_cryptokeys
      [⟨hexName 0, sizeofCryptoKey, [8]⟩,
       ⟨hexName 0, sizeofCryptoKey, [9]⟩] = .error err) :=
  ⟨filename_parsing_exact.2.2.1 (hexName 0) [8] (by decide) (by decide),
   filename_parsing_exact.2.2.2.1
     [⟨('0' :: '0' :: '0' :: '1' :: []), sizeofCryptoKey, [8]⟩]
     ⟨⟨('0' :: '0' :: '0' :: '1' :: []), sizeofCryptoKey, [8]⟩,
       by simp, by decide, by decide⟩,
   filename_parsing_exact.2.2.2.2
     [⟨hexName 0, sizeofCryptoKey, [8]⟩, ⟨hexName 0, sizeofCryptoKey, [9]⟩]
     (by decide)⟩

/-- Round trip of the concrete witness AEAD instance. -/
theorem mkUnwrap_mkWrap (k : Nat) (p : List Nat) :
    mkUnwrap k (mkWrap k p) = some p := by
  simp [mkWrap, mkUnwrap]

/-- Authentication of the concrete witness AEAD instance: unwrapping under
a different context fails. -/
theorem mkUnwrap_mkWrap_ne (k k' : Nat) (p : List Nat) (h : k ≠ k') :
    mkUnwrap k' (mkWrap k p) = none := by
  simp [mkWrap, mkUnwrap, h]

/-- Helper: loading a standard one-key directory yields exactly that key
in slot 0 with count one. -/
theorem kmgr_get_cryptokeys_std (w : List Nat) :
    kmgr_get_cryptokeys (stdKeyDir w) = .ok ([w], 1) := by
  show getKeysLoop [⟨hexName 0, sizeofCryptoKey, w⟩] [zeroKey] 0 = _
  simp [getKeysLoop, show matchesKeyFilename (hexName 0) = true from by decide,
    show hexStrVal (hexName 0) = 0 from by decide, KMGR_MAX_INTERNAL_KEYS]

/-- Helper: a standard one-key directory decrypts under a context exactly
when its single wrapped key unwraps under that context. -/
theorem dirDecryptsUnder_std {K : Type}
    (unwrap : K → List Nat → Option (List Nat)) (k : K) (w : List Nat) :
    dirDecryptsUnder unwrap k (stdKeyDir w) ↔ (unwrap k w).isSome := by
  unfold dirDecryptsUnder
  constructor
  · rintro ⟨ks, hks, hall⟩
    rw [kmgr_get_cryptokeys_std] at hks
    simp only [Except.ok.injEq, Prod.mk.injEq] at hks
    rcases hks with ⟨rfl, -⟩
    exact hall w (by simp)
  · intro h
    refine ⟨[w], ?_, ?_⟩
    · rw [kmgr_get_cryptokeys_std]
      rfl
    · intro w' hw'
      simp only [List.mem_singleton] at hw'
      subst hw'
      exact h

/-- Helper: recovery with both directories present and a complete
temporary directory swaps to the new keys. -/
theorem recover_both_std (p : List DirEnt) (w : List Nat) :
    recoverIncompleteRotation ⟨some p, some (stdKeyDir w)⟩ =
      .ok ⟨some (stdKeyDir w), none⟩ := by
  rw [recover_eq_both, kmgr_get_cryptokeys_std]
  rfl

/-- Helper: recovery with both directories present and an empty temporary
directory keeps the primary directory. -/
theorem recover_both_empty (p : List DirEnt) :
    recoverIncompleteRotation ⟨some p, some []⟩ = .ok ⟨some p, none⟩ := rfl

/-- C1: crash safety of rotation.  For every state reachable by crashing
after a prefix of the rotation steps — starting from a healthy store whose
key is wrapped under the old KEK `kOld`, staging the same DEK wrapped
under the new KEK `kNew` — recovery succeeds, the resulting state has the
primary directory present and the temporary directory absent, and the
surviving key set decrypts under exactly one of the two KEKs.  The AEAD
hypotheses state round trip, authenticated failure under the wrong
context, and that the two derived contexts differ. -/
theorem rotation_crash_recovery {K : Type}
    (wrap : K → List Nat → List Nat)
    (unwrap : K → List Nat → Option (List Nat)) (kOld kNew : K)
    (dek : List Nat)
    (hround : ∀ k p, unwrap k (wrap k p) = some p)
    (hauth : ∀ k k' p, k ≠ k' → unwrap k' (wrap k p) = none)
    (hne : kOld ≠ kNew) :
    ∀ s ∈ rotationCrashStates (wrap kOld dek) (wrap kNew dek),
      ∃ d', recoverIncompleteRotation s = .ok d' ∧ d'.tmp = none ∧
        ∃ dir, d'.primary = some dir ∧
          ((dirDecryptsUnder unwrap kOld dir ∧
             ¬ dirDecryptsUnder unwrap kNew dir) ∨
           (dirDecryptsUnder unwrap kNew dir ∧
             ¬ dirDecryptsUnder unwrap kOld dir)) := by
  have hold : dirDecryptsUnder unwrap kOld (stdKeyDir (wrap kOld dek)) :=
    (dirDecryptsUnder_std unwrap kOld _).mpr (by rw [hround]; rfl)
  have holdN : ¬ dirDecryptsUnder unwrap kNew (stdKeyDir (wrap kOld dek)) := by
    rw [dirDecryptsUnder_std, hauth kOld kNew dek hne]
    simp
  have hnew : dirDecryptsUnder unwrap kNew (stdKeyDir (wrap kNew dek)) :=
    (dirDecryptsUnder_std unwrap kNew _).mpr (by rw [hround]; rfl)
  have hnewO : ¬ dirDecryptsUnder unwrap kOld (stdKeyDir (wrap kNew dek)) := by
    rw [dirDecryptsUnder_std, hauth kNew kOld dek (Ne.symm hne)]
    simp
  intro s hs
  simp only [rotationCrashStates, List.mem_cons, List.not_mem_nil,
    or_false] at hs
  rcases hs with rfl | rfl | rfl | rfl | rfl | rfl
  · exact ⟨_, recover_eq_tmp_absent _, rfl, _, rfl, Or.inl ⟨hold, holdN⟩⟩
  · exact ⟨_, recover_both_empty _, rfl, _, rfl, Or.inl ⟨hold, holdN⟩⟩
  · exact ⟨_, recover_both_std _ _, rfl, _, rfl, Or.inr ⟨hnew, hnewO⟩⟩
  · exact ⟨_, recover_both_std _ _, rfl, _, rfl, Or.inr ⟨hnew, hnewO⟩⟩
  · exact ⟨_, recover_eq_primary_absent _, rfl, _, rfl, Or.inr ⟨hnew, hnewO⟩⟩
  · exact ⟨_, recover_eq_tmp_absent _, rfl, _, rfl, Or.inr ⟨hnew, hnewO⟩⟩

/-- Witness for C1 at the concrete AEAD instance and the crash point with
both directories fully written: recovery picks the new keys and they
decrypt under the new context only. -/
theorem rotation_crash_recovery_witness :
    ∃ d', recoverIncompleteRotation
        ⟨some (stdKeyDir (mkWrap 0 [7])), some (stdKeyDir (mkWrap 1 [7]))⟩ =
          .ok d' ∧ d'.tmp = none ∧
      ∃ dir, d'.primary = some dir ∧
        ((dirDecryptsUnder mkUnwrap 0 dir ∧
           ¬ dirDecryptsUnder mkUnwrap 1 dir) ∨
         (dirDecryptsUnder mkUnwrap 1 dir ∧
           ¬ dirDecryptsUnder mkUnwrap 0 dir)) :=
  rotation_crash_recovery mkWrap mkUnwrap 0 1 [7] mkUnwrap_mkWrap
    mkUnwrap_mkWrap_ne (by decide)
    ⟨some (stdKeyDir (mkWrap 0 [7])), some (stdKeyDir (mkWrap 1 [7]))⟩
    (by decide)

/-- C6: rotation only re-wraps.  From any state with no rotation in
flight, a successful `pg_rotate_cluster_passphrase` to a new passphrase
followed by startup under that same passphrase installs in the shared
cache exactly the plaintext DEKs that were cached before the rotation:
wrapping under the newly derived context and unwrapping under it is the
identity on each key (hypothesis `hround`), and rotation reads the
plaintexts only from the cache. -/
theorem rotation_preserves_plaintexts {K : Type} (derive : List Nat → K)
    (wrap : K → List Nat → List Nat)
    (unwrap : K → List Nat → Option (List Nat))
    (hround : ∀ k p, unwrap k (wrap k p) = some p)
    (d : DiskState) (cache cache0 : List (List Nat)) (newPass : List Nat)
    (htmp : d.tmp = none)
    (hc : cache.length = KMGR_MAX_INTERNAL_KEYS)
    (hc0 : cache0.length = KMGR_MAX_INTERNAL_KEYS)
    (hlen : KMGR_MIN_PASSPHRASE_LEN ≤ newPass.length) :
    ∃ d2, pg_rotate_cluster_passphrase derive wrap d cache newPass =
        .ok d2 ∧
      InitializeKmgr derive unwrap d2 cache0 newPass = ⟨none, d2, cache⟩ := by
  rcases List.length_eq_one.mp hc with ⟨c0, rfl⟩
  rcases List.length_eq_one.mp hc0 with ⟨x0, rfl⟩
  obtain ⟨p, t⟩ := d
  simp only at htmp
  subst htmp
  refine ⟨⟨some (stdKeyDir (wrap (derive newPass) c0)), none⟩, ?_, ?_⟩
  · unfold pg_rotate_cluster_passphrase
    rw [recover_eq_tmp_absent]
    dsimp only
    rw [if_neg (by omega)]
    simp [stdKeyDir, KMGR_MAX_INTERNAL_KEYS, List.range_succ]
  · unfold InitializeKmgr
    rw [recover_eq_tmp_absent]
    dsimp only
    rw [kmgr_get_cryptokeys_std]
    dsimp only
    unfold kmgr_verify_passphrase
    unfold verifyLoop
    rw [hround]
    unfold verifyLoop
    rfl

/-- Witness for C6 at the concrete AEAD instance: rotating a cache holding
the DEK `[7]` to the passphrase `[1,1,1,1,1,1,1,1]` and starting up under
it reinstalls `[7]`. -/
theorem rotation_preserves_plaintexts_witness :
    ∃ d2, pg_rotate_cluster_passphrase (fun p => p.length) mkWrap
        ⟨some (stdKeyDir (mkWrap 3 [7])), none⟩ [[7]]
        [1, 1, 1, 1, 1, 1, 1, 1] = .ok d2 ∧
      InitializeKmgr (fun p => p.length) mkUnwrap d2 [[0]]
        [1, 1, 1, 1, 1, 1, 1, 1] = ⟨none, d2, [[7]]⟩ :=
  rotation_preserves_plaintexts (fun p => p.length) mkWrap mkUnwrap
    (fun k p => mkUnwrap_mkWrap k p) ⟨some (stdKeyDir (mkWrap 3 [7])), none⟩
    [[7]] [[0]] [1, 1, 1, 1, 1, 1, 1, 1] rfl rfl rfl (by decide)

/-- Helper: below the buffer capacity, the expansion loop appends exactly
the substituted bytes: no write is suppressed by the bounds check. -/
theorem buildCmd_append : ∀ (tmpl out : List Nat),
    out.length + (substBytes tmpl).length ≤ MAXPGPATH - 1 →
      buildCmd tmpl out = out ++ substBytes tmpl := by
  intro tmpl out
  induction tmpl, out using buildCmd.induct with
  | case1 out => intro h; simp [buildCmd, substBytes]
  | case2 c out =>
    intro h
    simp only [substBytes, List.length_cons, List.length_nil, MAXPGPATH] at h
    simp [buildCmd, substBytes, appendChecked, MAXPGPATH]
    omega
  | case3 rest out ih =>
    intro h
    have hs : substBytes (37 :: 112 :: rest) = promptCopied ++ substBytes rest := by
      simp [substBytes]
    rw [hs] at h ⊢
    have hb : buildCmd (37 :: 112 :: rest) out = buildCmd rest (out ++ promptCopied) := by
      simp [buildCmd]
    rw [hb]
    rw [ih (by simp only [List.length_append] at h ⊢; omega)]
    rw [List.append_assoc]
  | case4 rest out hne ih =>
    intro h
    have hs : substBytes (37 :: 37 :: rest) = 37 :: substBytes rest := by
      simp [substBytes]
    rw [hs] at h ⊢
    have hlt : out.length < MAXPGPATH - 1 := by
      simp only [List.length_cons, MAXPGPATH] at h
      simp only [MAXPGPATH]
      omega
    have ha : appendChecked out 37 = out ++ [37] := by
      simp [appendChecked, hlt]
    have hb : buildCmd (37 :: 37 :: rest) out = buildCmd rest (out ++ [37]) := by
      simp [buildCmd, appendChecked, hlt]
    rw [ha] at ih
    rw [hb, ih (by simp only [List.length_append, List.length_cons,
      List.length_nil] at h ⊢; omega)]
    simp
  | case5 c rest out h112 h37 ih =>
    intro h
    have hs : substBytes (37 :: c :: rest) = 37 :: substBytes (c :: rest) := by
      simp [substBytes, h112, h37]
    rw [hs] at h ⊢
    have hlt : out.length < MAXPGPATH - 1 := by
      simp only [List.length_cons, MAXPGPATH] at h
      simp only [MAXPGPATH]
      omega
    have ha : appendChecked out 37 = out ++ [37] := by
      simp [appendChecked, hlt]
    have hb : buildCmd (37 :: c :: rest) out = buildCmd (c :: rest) (out ++ [37]) := by
      simp [buildCmd, appendChecked, h112, h37, hlt]
    rw [ha] at ih
    rw [hb, ih (by simp only [List.length_append, List.length_cons,
      List.length_nil] at h ⊢; omega)]
    simp
  | case6 c rest out h1 h2 ih =>
    intro h
    cases rest with
    | nil => exact absurd rfl h1
    | cons r1 rs =>
      have hc37 : c ≠ 37 := fun hc => h2 r1 rs hc rfl
      have hs : substBytes (c :: r1 :: rs) = c :: substBytes (r1 :: rs) :=
        substBytes.eq_4 c (r1 :: rs) (by simp)
          (fun c1 rs1 hc _ => hc37 hc)
      rw [hs] at h ⊢
      have hlt : out.length < MAXPGPATH - 1 := by
        simp only [List.length_cons, MAXPGPATH] at h
        simp only [MAXPGPATH]
        omega
      have ha : appendChecked out c = out ++ [c] := by
        simp [appendChecked, hlt]
      have hb : buildCmd (c :: r1 :: rs) out = buildCmd (r1 :: rs) (out ++ [c]) := by
        rw [buildCmd.eq_4 out c (r1 :: rs) (by simp) (fun c1 rs1 hc _ => hc37 hc)]
        simp [appendChecked, hlt]
      rw [ha] at ih
      rw [hb, ih (by simp only [List.length_append, List.length_cons,
        List.length_nil] at h ⊢; omega)]
      simp

/-- C4 (amended): for every template whose expansion fits the command
buffer, the built command is the expansion truncated at its first NUL
byte, where the expansion replaces `%p` by the prompt with its final
character overwritten by a NUL terminator (the `StrNCpy` slip, which also
hides everything after the first `%p` from the shell), emits a single `%`
for `%%`, emits `%` followed by `X` for any other `%X`, and copies all
other bytes. -/
theorem command_substitution (tmpl : List Nat)
    (h : (substBytes tmpl).length ≤ MAXPGPATH - 1) :
    commandString tmpl = (substBytes tmpl).takeWhile (fun b => b != 0) := by
  unfold commandString
  rw [buildCmd_append tmpl [] (by simpa using h)]
  simp

/-- Witness for C4's amended statement at the template `echo %p!`: the
command handed to the shell is `echo ` followed by the first 37 bytes of
the prompt — the colon and the trailing `!` are lost. -/
theorem command_substitution_witness :
    commandString exTemplate =
      (substBytes exTemplate).takeWhile (fun b => b != 0) ∧
    (substBytes exTemplate).takeWhile (fun b => b != 0) =
      strBytes "echo " ++ promptBytes.take 37 :=
  ⟨command_substitution exTemplate (by decide), by decide⟩

/-- C4 as stated is refuted: on the template `echo %p!` the built command
is not the claimed substitution (exact prompt including the colon, with
the rest of the template preserved); the actual command stops inside the
prompt at the NUL byte `StrNCpy` deposited over the colon. -/
theorem command_substitution_counterexample :
    commandString exTemplate = strBytes "echo " ++ promptBytes.take 37 ∧
    claimSubst exTemplate =
      strBytes "echo " ++ promptBytes ++ strBytes "!" ∧
    commandString exTemplate ≠ claimSubst exTemplate := by
  decide

/-- C8: the accessor `KmgrGetKey` is an unimplemented stub that returns
the null pointer for every id and every cache state — it never returns a
reference to the cached key, contradicting its own contract. -/
theorem kmgr_get_key_stub_null :
    ∀ (cache : List (List Nat)) (id : Int), KmgrGetKey cache id = none :=
  fun _ _ => rfl
